import Mathlib

/-!
Shallow embedding of the `WebMessageRPC` class (src/src/WebMessageRPC.ts) and
its utilities (`formatError`, `generateToken`).

Modelling decisions, all taken from the source:
* JavaScript runtime values that can travel through the adapter are modelled by
  the inductive type `Val` (undefined, null, booleans, numbers, strings,
  `Error` instances, function values, arrays, plain objects).  Function values
  are identified by a numeric id; their behaviour is supplied by an
  environment `env : Nat -> List RArg -> Except Val Val` (a handler either
  returns a value or throws/rejects with a value), matching that handlers are
  invoked with `await` so synchronous throws and rejections coincide.
* `Map` objects (`callMap`, `promiseMap`) are association lists with the
  `Map.get/set/delete/has` operations (`mapGet`, `mapSet`, `mapDelete`).
* `generateToken` (utils) returns `Date.now().toString(36)` plus a random
  suffix; it is modelled by an abstract stream `tokens : Nat -> String`
  consumed at the instance's `tokCounter`; collision-resistance of the
  generator is expressed as injectivity of the stream where needed.
* The pending-call futures are modelled explicitly: `promiseMap` maps a token
  to a future id, and the table `futures` records each future's state.  The
  executor of the promise returned by the call proxy is modelled as running at
  construction, as in the in-repo variant that uses `new Promise(...)`.
* The adapter subscription is the boolean `subscribed`; `deliver` hands an
  inbound payload to `messageHandler` only while subscribed, and collects the
  payloads the instance posts back through the adapter as an output list.
-/

namespace WebMessageRPC

/-- JavaScript values as they occur in this protocol.  `fn i` is a function
value whose behaviour is given by an external environment at id `i`. -/
inductive Val where
  | undefined : Val
  | null : Val
  | bool (b : Bool) : Val
  | num (n : Int) : Val
  | str (s : String) : Val
  | err (name message : String) : Val
  | fn (i : Nat) : Val
  | arr (elems : List Val) : Val
  | obj (fields : List (String × Val)) : Val

/-- Arguments as seen by an invoked handler after the dispatcher rewrote
callback references: either a plain value or the synthesized forwarding
closure capturing the `callbackMethodName` it will call back through the
call proxy. -/
inductive RArg where
  | plain (v : Val) : RArg
  | fwd (callbackMethodName : Val) : RArg

/-- State of one pending-call future. -/
inductive FutureState where
  | pending : FutureState
  | resolved (v : Val) : FutureState
  | rejected (v : Val) : FutureState

/-- Association-list lookup, mirroring `Map.get` / first matching key. -/
def mapGet [DecidableEq κ] (m : List (κ × α)) (k : κ) : Option α :=
  match m with
  | [] => none
  | p :: rest => if p.1 = k then some p.2 else mapGet rest k

/-- Association-list update, mirroring `Map.set`: replace the first binding
of the key, or append a new binding. -/
def mapSet [DecidableEq κ] (m : List (κ × α)) (k : κ) (v : α) : List (κ × α) :=
  match m with
  | [] => [(k, v)]
  | p :: rest => if p.1 = k then (k, v) :: rest else p :: mapSet rest k v

/-- Association-list removal, mirroring `Map.delete`. -/
def mapDelete [DecidableEq κ] (m : List (κ × α)) (k : κ) : List (κ × α) :=
  match m with
  | [] => []
  | p :: rest => if p.1 = k then mapDelete rest k else p :: mapDelete rest k

/-- Mutable state of one `WebMessageRPC` instance.  `callMap` stores ids into
the function environment; `promiseMap` maps a call token to a future id. -/
structure RPCState where
  callMap : List (String × Nat)
  promiseMap : List (String × Nat)
  futures : List (Nat × FutureState)
  nextFutureId : Nat
  tokCounter : Nat
  subscribed : Bool

/-- Property read `v[k]` with optional chaining: reading any field of a
non-object (or a missing field) yields `undefined`. -/
def getField (v : Val) (k : String) : Val :=
  match v with
  | .obj fields => (mapGet fields k).getD .undefined
  | _ => .undefined

/-- JavaScript truthiness of a value. -/
def truthy : Val → Bool
  | .undefined => false
  | .null => false
  | .bool b => b
  | .num n => n != 0
  | .str s => s != ""
  | .err _ _ => true
  | .fn _ => true
  | .arr _ => true
  | .obj _ => true

/-- The string carried by a string value, `none` otherwise; used to model
strict (`===`) comparison against string literals and `Map` keys, which in
this program are always strings. -/
def Val.asStr : Val → Option String
  | .str s => some s
  | _ => none

/-- The id of a function value (`typeof arg == "function"`), `none` for every
other value. -/
def fnId : Val → Option Nat
  | .fn i => some i
  | _ => none

/-- Whether a value is a function value. -/
def isFn (v : Val) : Bool := (fnId v).isSome

/-- Number of function values in a list, used to count how many callback
tokens an argument list consumes. -/
def countFn (l : List Val) : Nat := (l.filter isFn).length

/-- `formatError` from utils: an `Error` instance is reduced to its
`message`/`name` fields, every other thrown value passes through as-is. -/
def formatError : Val → Val
  | .err name message => .obj [("message", .str message), ("name", .str name)]
  | v => v

/-- The callback-reference object the call proxy substitutes for a function
argument. -/
def cbRef (callbackMethodName : String) : Val :=
  .obj [("__rpc_callback__", .bool true), ("callbackMethodName", .str callbackMethodName)]

/-- The argument rewriting performed by the call proxy: each function argument
is registered in `callMap` under a fresh `callback-<token>` key and replaced
by a callback-reference object; other arguments pass through unchanged. -/
def marshalArgs (tokens : Nat → String) : List Val → RPCState → List Val × RPCState
  | [], s => ([], s)
  | a :: rest, s =>
    match fnId a with
    | some i =>
      let name := "callback-" ++ tokens s.tokCounter
      let s1 := { s with tokCounter := s.tokCounter + 1, callMap := mapSet s.callMap name i }
      let t := marshalArgs tokens rest s1
      (cbRef name :: t.1, t.2)
    | none =>
      let t := marshalArgs tokens rest s
      (a :: t.1, t.2)

/-- Result of invoking a callable obtained from the call proxy: next state,
payloads posted through the adapter, and the id of the future returned to
the caller. -/
structure CallOut where
  state : RPCState
  sent : List Val
  futureId : Nat

/-- Invoking `callProxy[methodName](...args)`: marshal the arguments,
generate a call token, post the call payload, and record the pending future
for that token. -/
def callProxyInvoke (tokens : Nat → String) (s : RPCState) (methodName : String)
    (args : List Val) : CallOut :=
  let m := marshalArgs tokens args s
  let token := tokens m.2.tokCounter
  let s2 := { m.2 with tokCounter := m.2.tokCounter + 1 }
  let payload : Val := .obj [("type", .str "call"), ("method", .str methodName),
    ("args", .arr m.1), ("token", .str token)]
  let fid := s2.nextFutureId
  { state := { s2 with
      futures := s2.futures ++ [(fid, .pending)],
      nextFutureId := fid + 1,
      promiseMap := mapSet s2.promiseMap token fid },
    sent := [payload],
    futureId := fid }

/-- The key computation shared by `register`, `deregister` and `use`:
`namespace ? namespace + ":" + methodName : methodName`, with JavaScript
string truthiness (the empty string is falsy). -/
def jsKey (ns : String) (methodName : String) : String :=
  if ns = "" then methodName else ns ++ ":" ++ methodName

/-- The same key computation when the namespace variable may be left
undefined (the one-argument overload of `register`/`deregister`). -/
def methodKey (ns : Option String) (methodName : String) : String :=
  match ns with
  | some n => jsKey n methodName
  | none => methodName

/-- Invoking a method through the proxy returned by `use(ns)`: the accessed
name is rewritten with `jsKey` and delegated to the call proxy. -/
def useInvoke (tokens : Nat → String) (s : RPCState) (ns : String) (methodName : String)
    (args : List Val) : CallOut :=
  callProxyInvoke tokens s (jsKey ns methodName) args

/-- The `forEach` loop of `register`: each entry is inserted (or overwritten)
under its computed method key. -/
def regFold (ns : Option String) : List (String × Nat) → RPCState → RPCState
  | [], s => s
  | p :: rest, s =>
    regFold ns rest { s with callMap := mapSet s.callMap (methodKey ns p.1) p.2 }

/-- `register`: `ns` is the namespace variable (undefined in the
one-argument overload), `methods` the resolved method set (undefined when no
object argument was passed, which makes the call throw).  Handlers are ids
into the function environment.  Returns the updated state together with the
method set, which is returned unchanged. -/
def registerRPC (s : RPCState) (ns : Option String) (methods : Option (List (String × Nat))) :
    Except String (RPCState × List (String × Nat)) :=
  match methods with
  | none => Except.error "methods cannot be undefined"
  | some ms => Except.ok (regFold ns ms s, ms)

/-- The dispatcher's rewriting of one inbound call argument: an object with a
truthy `__rpc_callback__` field becomes the synthesized forwarding closure,
every other argument passes through. -/
def rewriteArg (v : Val) : RArg :=
  if truthy (getField v "__rpc_callback__") then .fwd (getField v "callbackMethodName")
  else .plain v

/-- Message text of the TypeError raised by `payload.args.map(...)` when
`args` is not an array (the exact wording is engine-dependent; only the fact
that an error is thrown and caught matters). -/
def typeErrMsg (v : Val) : String :=
  match v with
  | .undefined => "Cannot read properties of undefined"
  | .null => "Cannot read properties of null"
  | _ => "payload.args.map is not a function"

/-- `payload.args.map(rewrite)` inside the dispatcher's try block: mapping a
non-array throws a TypeError, which the surrounding catch turns into a fail
result. -/
def mapCallArgs (v : Val) : Except Val (List RArg) :=
  match v with
  | .arr l => .ok (l.map rewriteArg)
  | other => .error (.err "TypeError" (typeErrMsg other))

/-- The success result payload posted back after a handler returns. -/
def mkSuccessPayload (data tok : Val) : Val :=
  .obj [("type", .str "call-result"), ("result", .str "success"), ("data", data), ("token", tok)]

/-- The fail result payload posted back after the try block catches. -/
def mkFailPayload (error tok : Val) : Val :=
  .obj [("type", .str "call-result"), ("result", .str "fail"), ("error", error), ("token", tok)]

/-- The guard of the dispatcher's call branch:
`payload?.type === "call" && payload?.method && callMap.has(payload.method)`.
Returns the handler id when the branch is taken.  A non-string or empty
method never passes (an empty string is falsy, and `Map.has` on the
string-keyed registry fails for every non-string). -/
def findCall (s : RPCState) (payload : Val) : Option Nat :=
  if (getField payload "type").asStr = some "call" then
    match (getField payload "method").asStr with
    | some name => if name = "" then none else mapGet s.callMap name
    | none => none
  else none

/-- The dispatcher's try/catch around one inbound call for handler `fid`:
rewrite the arguments (a non-array `args` throws), invoke the handler, and
post a success or fail result echoing the inbound token.  Returns the posted
payloads and the handler invocations performed. -/
def runCall (env : Nat → List RArg → Except Val Val) (payload : Val) (fid : Nat) :
    List Val × List (Nat × List RArg) :=
  let tok := getField payload "token"
  match mapCallArgs (getField payload "args") with
  | .error e => ([mkFailPayload (formatError e) tok], [])
  | .ok rargs =>
    match env fid rargs with
    | .ok data => ([mkSuccessPayload data tok], [(fid, rargs)])
    | .error e => ([mkFailPayload (formatError e) tok], [(fid, rargs)])

/-- The guard of the dispatcher's result branch:
`payload?.type === "call-result" && promiseMap.has(payload.token)`.
Returns the token and pending future id when the branch is taken. -/
def findResult (s : RPCState) (payload : Val) : Option (String × Nat) :=
  if (getField payload "type").asStr = some "call-result" then
    match (getField payload "token").asStr with
    | some tok =>
      match mapGet s.promiseMap tok with
      | some fid => some (tok, fid)
      | none => none
    | none => none
  else none

/-- Settling of a pending-call promise: the first future bound to `fid`
moves to `st` if it is still pending (settling an already settled promise is
a no-op). -/
def settleFuture (fs : List (Nat × FutureState)) (fid : Nat) (st : FutureState) :
    List (Nat × FutureState) :=
  fs.map fun p =>
    if p.1 = fid then
      match p.2 with
      | .pending => (p.1, st)
      | _ => p
    else p

/-- The dispatcher's result branch for a pending token: resolve on
`result === "success"`, reject on `result === "fail"` (any other value hits
neither comparison), then unconditionally delete the table entry. -/
def runResult (s : RPCState) (payload : Val) (tok : String) (fid : Nat) : RPCState :=
  let r := (getField payload "result").asStr
  let s1 :=
    if r = some "success" then
      { s with futures := settleFuture s.futures fid (.resolved (getField payload "data")) }
    else s
  let s2 :=
    if r = some "fail" then
      { s1 with futures := settleFuture s1.futures fid (.rejected (getField payload "error")) }
    else s1
  { s2 with promiseMap := mapDelete s2.promiseMap tok }

/-- Observable outcome of one dispatcher run: the next state, the payloads
posted through the adapter, and the handler invocations performed. -/
structure DispatchOut where
  state : RPCState
  sent : List Val
  invoked : List (Nat × List RArg)

/-- `messageHandler`: the call branch (which mutates no instance map) followed
by the result branch, each guarded as in the source. -/
def messageHandler (env : Nat → List RArg → Except Val Val) (s : RPCState) (payload : Val) :
    DispatchOut :=
  let c :=
    match findCall s payload with
    | some fid => runCall env payload fid
    | none => ([], [])
  let s' :=
    match findResult s payload with
    | some q => runResult s payload q.1 q.2
    | none => s
  ⟨s', c.1, c.2⟩

/-- A fresh instance: the constructor copies the initial method set into
`callMap` and subscribes the message handler on the adapter. -/
def init (methods : List (String × Nat)) : RPCState :=
  { callMap := methods, promiseMap := [], futures := [], nextFutureId := 0,
    tokCounter := 0, subscribed := true }

/-- `destroy()`: unsubscribe from the adapter and clear both maps.  Futures
already handed out are not settled. -/
def destroy (s : RPCState) : RPCState :=
  { s with subscribed := false, promiseMap := [], callMap := [] }

/-- One payload arriving on the adapter: it reaches `messageHandler` only
while the instance is subscribed. -/
def deliver (env : Nat → List RArg → Except Val Val) (s : RPCState) (payload : Val) :
    DispatchOut :=
  if s.subscribed then messageHandler env s payload else ⟨s, [], []⟩

/-- A sequence of payloads arriving on the adapter, with all posted payloads
and handler invocations collected in order. -/
def deliverList (env : Nat → List RArg → Except Val Val) :
    RPCState → List Val → RPCState × List Val × List (Nat × List RArg)
  | s, [] => (s, [], [])
  | s, p :: ps =>
    let d := deliver env s p
    let rest := deliverList env d.state ps
    (rest.1, d.sent ++ rest.2.1, d.invoked ++ rest.2.2)

/-- A concrete collision-free token stream used to instantiate theorems whose
hypotheses require token freshness. -/
def tokW (n : Nat) : String := String.mk (List.replicate n 'x')

/-! ### Association-list and string lemmas -/

theorem mapGet_mapSet [DecidableEq κ] (m : List (κ × α)) (k k' : κ) (v : α) :
    mapGet (mapSet m k v) k' = if k' = k then some v else mapGet m k' := by
  induction m with
  | nil =>
    by_cases h : k' = k
    · subst h; simp [mapGet, mapSet]
    · have h' : ¬ k = k' := fun h2 => h h2.symm
      simp [mapGet, mapSet, h, h']
  | cons p rest ih =>
    by_cases hp : p.1 = k
    · subst hp
      by_cases h : k' = p.1
      · subst h; simp [mapGet, mapSet]
      · have h' : ¬ p.1 = k' := fun h2 => h h2.symm
        simp [mapGet, mapSet, h, h']
    · by_cases h : p.1 = k'
      · subst h
        have hne : ¬ p.1 = k := hp
        simp [mapGet, mapSet, hne, fun h2 : p.1 = k => hp h2]
      · simp [mapGet, mapSet, hp, h, ih]

theorem mapGet_mapDelete [DecidableEq κ] (m : List (κ × α)) (k k' : κ) :
    mapGet (mapDelete m k) k' = if k' = k then none else mapGet m k' := by
  induction m with
  | nil => simp [mapGet, mapDelete]
  | cons p rest ih =>
    by_cases hp : p.1 = k
    · subst hp
      by_cases h : k' = p.1
      · subst h; simp [mapGet, mapDelete, ih]
      · have h' : ¬ p.1 = k' := fun h2 => h h2.symm
        simp [mapGet, mapDelete, h, h', ih]
    · by_cases h : p.1 = k'
      · subst h
        simp [mapGet, mapDelete, hp]
      · simp [mapGet, mapDelete, hp, h, ih]

theorem mem_mapDelete [DecidableEq κ] {m : List (κ × α)} {k : κ} {q : κ × α}
    (h : q ∈ mapDelete m k) : q ∈ m ∧ q.1 ≠ k := by
  induction m with
  | nil => simp [mapDelete] at h
  | cons p rest ih =>
    by_cases hp : p.1 = k
    · rw [mapDelete, if_pos hp] at h
      exact ⟨List.mem_cons_of_mem _ (ih h).1, (ih h).2⟩
    · rw [mapDelete, if_neg hp] at h
      rcases List.mem_cons.mp h with h1 | h1
      · subst h1; exact ⟨List.mem_cons_self _ _, hp⟩
      · exact ⟨List.mem_cons_of_mem _ (ih h1).1, (ih h1).2⟩

theorem mapGet_mem [DecidableEq κ] {m : List (κ × α)} {k : κ} {v : α}
    (h : mapGet m k = some v) : (k, v) ∈ m := by
  induction m with
  | nil => simp [mapGet] at h
  | cons p rest ih =>
    rw [mapGet] at h
    by_cases hp : p.1 = k
    · rw [if_pos hp] at h
      have : p = (k, v) := by
        obtain ⟨a, b⟩ := p
        simp at hp h
        simp [hp, h]
      exact this ▸ List.mem_cons_self _ _
    · rw [if_neg hp] at h
      exact List.mem_cons_of_mem _ (ih h)

theorem mapGet_append_right [DecidableEq κ] (m1 m2 : List (κ × α)) (k : κ)
    (h : mapGet m1 k = none) : mapGet (m1 ++ m2) k = mapGet m2 k := by
  induction m1 with
  | nil => simp [mapGet]
  | cons p rest ih =>
    rw [mapGet] at h
    by_cases hp : p.1 = k
    · rw [if_pos hp] at h; exact absurd h (by simp)
    · rw [if_neg hp] at h
      simpa [mapGet, hp] using ih h

theorem str_append_cancel (a b c : String) (h : a ++ b = a ++ c) : b = c := by
  have h2 := congrArg String.data h
  rw [String.data_append, String.data_append] at h2
  exact String.ext (List.append_cancel_left h2)

/-! ### Small facts about values and counters -/

theorem fnId_eq_some {a : Val} {i : Nat} : fnId a = some i ↔ a = Val.fn i := by
  cases a <;> simp [fnId]

theorem countFn_nil : countFn [] = 0 := rfl

theorem countFn_cons_fn {a : Val} {i : Nat} (h : fnId a = some i) (l : List Val) :
    countFn (a :: l) = countFn l + 1 := by
  have : isFn a = true := by simp [isFn, h]
  simp [countFn, List.filter_cons, this]

theorem countFn_cons_notfn {a : Val} (h : fnId a = none) (l : List Val) :
    countFn (a :: l) = countFn l := by
  have : isFn a = false := by simp [isFn, h]
  simp [countFn, List.filter_cons, this]

theorem cbName_inj (tokens : Nat → String) (hinj : ∀ a b, tokens a = tokens b → a = b)
    {x y : Nat} (h : "callback-" ++ tokens x = "callback-" ++ tokens y) : x = y :=
  hinj x y (str_append_cancel _ _ _ h)

/-! ### Structure of `marshalArgs` -/

theorem marshalArgs_state (tokens : Nat → String) :
    ∀ (args : List Val) (s : RPCState),
      (marshalArgs tokens args s).2.tokCounter = s.tokCounter + countFn args ∧
      (marshalArgs tokens args s).2.promiseMap = s.promiseMap ∧
      (marshalArgs tokens args s).2.futures = s.futures ∧
      (marshalArgs tokens args s).2.nextFutureId = s.nextFutureId ∧
      (marshalArgs tokens args s).2.subscribed = s.subscribed := by
  intro args
  induction args with
  | nil => intro s; simp [marshalArgs, countFn_nil]
  | cons a rest ih =>
    intro s
    cases hfa : fnId a with
    | some i =>
      have h := ih { s with tokCounter := s.tokCounter + 1, callMap := mapSet s.callMap ("callback-" ++ tokens s.tokCounter) i }
      simp only [marshalArgs, hfa] at h ⊢
      refine ⟨?_, h.2⟩
      rw [h.1, countFn_cons_fn hfa]
      omega
    | none =>
      have h := ih s
      simp only [marshalArgs, hfa] at h ⊢
      refine ⟨?_, h.2⟩
      rw [h.1, countFn_cons_notfn hfa]

theorem marshalArgs_length (tokens : Nat → String) :
    ∀ (args : List Val) (s : RPCState),
      (marshalArgs tokens args s).1.length = args.length := by
  intro args
  induction args with
  | nil => intro s; simp [marshalArgs]
  | cons a rest ih =>
    intro s
    cases hfa : fnId a with
    | some i => simp only [marshalArgs, hfa]; simp [ih]
    | none => simp only [marshalArgs, hfa]; simp [ih]

theorem marshalArgs_callMap_preserve (tokens : Nat → String) :
    ∀ (args : List Val) (s : RPCState) (K : String),
      (∀ j, s.tokCounter ≤ j → K ≠ "callback-" ++ tokens j) →
      mapGet (marshalArgs tokens args s).2.callMap K = mapGet s.callMap K := by
  intro args
  induction args with
  | nil => intro s K _; simp [marshalArgs]
  | cons a rest ih =>
    intro s K hK
    cases hfa : fnId a with
    | some i =>
      simp only [marshalArgs, hfa]
      have h1 := ih { s with tokCounter := s.tokCounter + 1, callMap := mapSet s.callMap ("callback-" ++ tokens s.tokCounter) i } K (fun j hj => hK j (Nat.le_of_succ_le hj))
      rw [h1]
      have hne : K ≠ "callback-" ++ tokens s.tokCounter := hK s.tokCounter (Nat.le_refl _)
      simp [mapGet_mapSet, hne]
    | none =>
      simp only [marshalArgs, hfa]
      exact ih s K hK

/-! ### Structure of `regFold` -/

theorem methodKey_inj (ns : Option String) {a b : String}
    (h : methodKey ns a = methodKey ns b) : a = b := by
  cases ns with
  | none => exact h
  | some n =>
    by_cases hn : n = ""
    · simpa [methodKey, jsKey, hn] using h
    · simp only [methodKey, jsKey, hn, if_neg] at h
      exact str_append_cancel _ _ _ h

theorem regFold_state (ns : Option String) :
    ∀ (ms : List (String × Nat)) (s : RPCState),
      (regFold ns ms s).promiseMap = s.promiseMap ∧
      (regFold ns ms s).futures = s.futures ∧
      (regFold ns ms s).nextFutureId = s.nextFutureId ∧
      (regFold ns ms s).tokCounter = s.tokCounter ∧
      (regFold ns ms s).subscribed = s.subscribed := by
  intro ms
  induction ms with
  | nil => intro s; simp [regFold]
  | cons p rest ih =>
    intro s
    simpa [regFold] using ih { s with callMap := mapSet s.callMap (methodKey ns p.1) p.2 }

theorem regFold_preserve (ns : Option String) :
    ∀ (ms : List (String × Nat)) (s : RPCState) (K : String),
      (∀ q ∈ ms, methodKey ns q.1 ≠ K) →
      mapGet (regFold ns ms s).callMap K = mapGet s.callMap K := by
  intro ms
  induction ms with
  | nil => intro s K _; simp [regFold]
  | cons p rest ih =>
    intro s K hK
    rw [regFold]
    rw [ih _ K (fun q hq => hK q (List.mem_cons_of_mem _ hq))]
    have hp : methodKey ns p.1 ≠ K := hK p (List.mem_cons_self _ _)
    rw [mapGet_mapSet, if_neg (fun h : K = methodKey ns p.1 => hp h.symm)]

theorem regFold_mem (ns : Option String) :
    ∀ (ms : List (String × Nat)) (s : RPCState) (name : String) (fid : Nat),
      (name, fid) ∈ ms → (ms.map Prod.fst).Nodup →
      mapGet (regFold ns ms s).callMap (methodKey ns name) = some fid := by
  intro ms
  induction ms with
  | nil => intro s name fid h; simp at h
  | cons p rest ih =>
    intro s name fid hmem hnd
    have hnd' := hnd
    rw [List.map_cons, List.nodup_cons] at hnd'
    rcases List.mem_cons.mp hmem with h1 | h1
    · rw [regFold]
      rw [regFold_preserve ns rest _ (methodKey ns name) ?_]
      · rw [← h1]
        simp [mapGet_mapSet]
      · intro q hq hkey
        have hq1 : q.1 = name := methodKey_inj ns hkey
        apply hnd'.1
        have hmm : name ∈ List.map Prod.fst rest := hq1 ▸ List.mem_map_of_mem Prod.fst hq
        have hp1 : p.1 = name := by rw [← h1]
        rw [hp1]
        exact hmm
    · rw [regFold]
      exact ih _ name fid h1 hnd'.2

/-! ### Structure of `settleFuture`, `findCall`, `findResult` -/

theorem mapGet_settleFuture_ne (fs : List (Nat × FutureState)) (fid fid' : Nat)
    (st : FutureState) (h : fid' ≠ fid) :
    mapGet (settleFuture fs fid st) fid' = mapGet fs fid' := by
  induction fs with
  | nil => simp [settleFuture]
  | cons p rest ih =>
    obtain ⟨a, b⟩ := p
    by_cases ha : a = fid
    · subst ha
      have hne : ¬ a = fid' := fun h2 => h (h2.symm)
      cases b <;> simp [settleFuture, mapGet, hne] <;> simpa [settleFuture] using ih
    · by_cases ha' : a = fid'
      · subst ha'
        simp [settleFuture, mapGet, ha]
      · simp [settleFuture, mapGet, ha, ha'] at ih ⊢
        exact ih

theorem mapGet_settleFuture_pending (fs : List (Nat × FutureState)) (fid : Nat)
    (st : FutureState) (h : mapGet fs fid = some .pending) :
    mapGet (settleFuture fs fid st) fid = some st := by
  induction fs with
  | nil => simp [mapGet] at h
  | cons p rest ih =>
    obtain ⟨a, b⟩ := p
    by_cases ha : a = fid
    · subst ha
      rw [mapGet, if_pos rfl] at h
      have hb : b = FutureState.pending := by
        cases b <;> simp_all
      subst hb
      simp [settleFuture, mapGet]
    · rw [mapGet, if_neg ha] at h
      simp only [settleFuture, List.map_cons]
      rw [if_neg ha, mapGet, if_neg ha]
      simpa [settleFuture] using ih h

theorem findCall_eq_some {s : RPCState} {payload : Val} {fid : Nat}
    (h : findCall s payload = some fid) :
    ∃ name, (getField payload "type").asStr = some "call" ∧
      (getField payload "method").asStr = some name ∧ name ≠ "" ∧
      mapGet s.callMap name = some fid := by
  rw [findCall] at h
  split at h
  · rename_i htype
    split at h
    · rename_i name hname
      split at h
      · exact absurd h (by simp)
      · rename_i hne
        exact ⟨name, htype, hname, hne, h⟩
    · exact absurd h (by simp)
  · exact absurd h (by simp)

theorem findResult_eq_some {s : RPCState} {payload : Val} {tok : String} {fid : Nat}
    (h : findResult s payload = some (tok, fid)) :
    (getField payload "type").asStr = some "call-result" ∧
      (getField payload "token").asStr = some tok ∧
      mapGet s.promiseMap tok = some fid := by
  rw [findResult] at h
  split at h
  · rename_i htype
    split at h
    · rename_i t ht
      split at h
      · rename_i f hf
        injection h with h2
        obtain ⟨rfl, rfl⟩ := Prod.mk.injEq .. ▸ (by injection h2 with hA hB; exact ⟨hA, hB⟩ : t = tok ∧ f = fid)
        exact ⟨htype, ht, hf⟩
      · exact absurd h (by simp)
    · exact absurd h (by simp)
  · exact absurd h (by simp)

theorem runResult_promiseMap (s : RPCState) (payload : Val) (tok : String) (fid : Nat) :
    (runResult s payload tok fid).promiseMap = mapDelete s.promiseMap tok := by
  rw [runResult]
  by_cases h1 : (getField payload "result").asStr = some "success" <;>
    by_cases h2 : (getField payload "result").asStr = some "fail" <;>
      simp [h1, h2]

theorem runResult_futures_get (s : RPCState) (payload : Val) (tok : String) (f fid : Nat)
    (hne : f ≠ fid) :
    mapGet (runResult s payload tok f).futures fid = mapGet s.futures fid := by
  have hne' : fid ≠ f := fun h => hne h.symm
  rw [runResult]
  by_cases h1 : (getField payload "result").asStr = some "success" <;>
    by_cases h2 : (getField payload "result").asStr = some "fail" <;>
      simp [h1, h2, mapGet_settleFuture_ne _ _ _ _ hne']

/-- The state after one dispatcher run is the result branch applied to the
inbound payload (the call branch mutates no instance map). -/
theorem messageHandler_state (env : Nat → List RArg → Except Val Val) (s : RPCState)
    (payload : Val) :
    (messageHandler env s payload).state
      = match findResult s payload with
        | some q => runResult s payload q.1 q.2
        | none => s := rfl

/-- A future that no pending-table entry references is untouched by the
dispatcher, and stays unreferenced (the dispatcher never adds entries). -/
theorem messageHandler_no_ref (env : Nat → List RArg → Except Val Val) (s : RPCState)
    (p : Val) (fid : Nat) (h : ∀ pr ∈ s.promiseMap, pr.2 ≠ fid) :
    mapGet (messageHandler env s p).state.futures fid = mapGet s.futures fid ∧
    ∀ pr ∈ (messageHandler env s p).state.promiseMap, pr.2 ≠ fid := by
  rw [messageHandler_state]
  cases hfr : findResult s p with
  | none => exact ⟨rfl, h⟩
  | some q =>
    obtain ⟨tok, f⟩ := q
    have hq := findResult_eq_some hfr
    have hfne : f ≠ fid := h (tok, f) (mapGet_mem hq.2.2)
    constructor
    · exact runResult_futures_get s p tok f fid hfne
    · intro pr hpr
      rw [runResult_promiseMap] at hpr
      exact h pr (mem_mapDelete hpr).1

/-- Extension of the previous lemma to any sequence of inbound payloads. -/
theorem deliverList_no_ref (env : Nat → List RArg → Except Val Val) :
    ∀ (ps : List Val) (s : RPCState) (fid : Nat),
      (∀ pr ∈ s.promiseMap, pr.2 ≠ fid) →
      mapGet (deliverList env s ps).1.futures fid = mapGet s.futures fid ∧
      ∀ pr ∈ (deliverList env s ps).1.promiseMap, pr.2 ≠ fid := by
  intro ps
  induction ps with
  | nil => intro s fid h; exact ⟨rfl, h⟩
  | cons p rest ih =>
    intro s fid h
    have hfirst : (deliverList env s (p :: rest)).1
        = (deliverList env (deliver env s p).state rest).1 := rfl
    rw [hfirst]
    by_cases hs : s.subscribed
    · have hdel : deliver env s p = messageHandler env s p := by rw [deliver, if_pos hs]
      rw [hdel]
      have hd := messageHandler_no_ref env s p fid h
      obtain ⟨h1, h2⟩ := ih (messageHandler env s p).state fid hd.2
      exact ⟨h1.trans hd.1, h2⟩
    · have hdel : deliver env s p = ⟨s, [], []⟩ := by rw [deliver, if_neg hs]
      rw [hdel]
      exact ih s fid h

/-! ### Elementwise characterization of the call proxy's argument rewriting -/

theorem marshalArgs_spec (tokens : Nat → String) (hinj : ∀ a b, tokens a = tokens b → a = b) :
    ∀ (args : List Val) (s : RPCState) (k : Nat),
      (∀ i, args.get? k = some (Val.fn i) →
        (marshalArgs tokens args s).1.get? k
            = some (cbRef ("callback-" ++ tokens (s.tokCounter + countFn (args.take k)))) ∧
        mapGet (marshalArgs tokens args s).2.callMap
            ("callback-" ++ tokens (s.tokCounter + countFn (args.take k))) = some i) ∧
      (∀ v, args.get? k = some v → fnId v = none →
        (marshalArgs tokens args s).1.get? k = some v) := by
  intro args
  induction args with
  | nil => intro s k; simp
  | cons a rest ih =>
    intro s k
    cases hfa : fnId a with
    | some i0 =>
      have ha : a = Val.fn i0 := fnId_eq_some.mp hfa
      cases k with
      | zero =>
        constructor
        · intro i hi
          rw [List.get?_cons_zero] at hi
          injection hi with hi
          have hii : i0 = i := by rw [ha] at hi; injection hi
          subst hii
          simp only [marshalArgs, hfa, List.take_zero, countFn_nil, Nat.add_zero]
          refine ⟨by simp, ?_⟩
          rw [marshalArgs_callMap_preserve tokens rest _ _ ?_]
          · simp [mapGet_mapSet]
          · intro j hj heq
            have := cbName_inj tokens hinj heq
            simp at hj
            omega
        · intro v hv hfv
          rw [List.get?_cons_zero] at hv
          injection hv with hv
          rw [← hv, ha] at hfv
          simp [fnId] at hfv
      | succ k =>
        have harith : s.tokCounter + 1 + countFn (rest.take k) = s.tokCounter + countFn ((a :: rest).take (k + 1)) := by
          rw [List.take_succ_cons, countFn_cons_fn hfa]
          omega
        constructor
        · intro i hi
          rw [List.get?_cons_succ] at hi
          have hIH := (ih { s with tokCounter := s.tokCounter + 1, callMap := mapSet s.callMap ("callback-" ++ tokens s.tokCounter) i0 } k).1 i hi
          simp only [marshalArgs, hfa]
          rw [List.get?_cons_succ]
          rw [← harith]
          exact hIH
        · intro v hv hfv
          rw [List.get?_cons_succ] at hv
          have hIH := (ih { s with tokCounter := s.tokCounter + 1, callMap := mapSet s.callMap ("callback-" ++ tokens s.tokCounter) i0 } k).2 v hv hfv
          simp only [marshalArgs, hfa]
          rw [List.get?_cons_succ]
          exact hIH
    | none =>
      cases k with
      | zero =>
        constructor
        · intro i hi
          rw [List.get?_cons_zero] at hi
          injection hi with hi
          rw [hi] at hfa
          simp [fnId] at hfa
        · intro v hv _
          rw [List.get?_cons_zero] at hv
          simp only [marshalArgs, hfa]
          rw [List.get?_cons_zero]
          exact hv
      | succ k =>
        have harith : s.tokCounter + countFn (rest.take k)
            = s.tokCounter + countFn ((a :: rest).take (k + 1)) := by
          rw [List.take_succ_cons, countFn_cons_notfn hfa]
        constructor
        · intro i hi
          rw [List.get?_cons_succ] at hi
          have hIH := (ih s k).1 i hi
          simp only [marshalArgs, hfa]
          rw [List.get?_cons_succ]
          rw [← harith]
          exact hIH
        · intro v hv hfv
          rw [List.get?_cons_succ] at hv
          have hIH := (ih s k).2 v hv hfv
          simp only [marshalArgs, hfa]
          rw [List.get?_cons_succ]
          exact hIH

theorem tokW_inj (a b : Nat) (h : tokW a = tokW b) : a = b := by
  have h2 := congrArg (fun s => s.data.length) h
  simpa [tokW] using h2

/-- A payload on which neither guard fires is ignored completely. -/
theorem messageHandler_inert (env : Nat → List RArg → Except Val Val) (s : RPCState)
    (payload : Val) (h1 : findCall s payload = none) (h2 : findResult s payload = none) :
    messageHandler env s payload = ⟨s, [], []⟩ := by
  simp [messageHandler, h1, h2]

theorem messageHandler_sent_invoked (env : Nat → List RArg → Except Val Val) (s : RPCState)
    (payload : Val) (fid : Nat) (h : findCall s payload = some fid) :
    (messageHandler env s payload).sent = (runCall env payload fid).1 ∧
    (messageHandler env s payload).invoked = (runCall env payload fid).2 := by
  constructor <;> simp [messageHandler, h]

theorem messageHandler_noCall (env : Nat → List RArg → Except Val Val) (s : RPCState)
    (payload : Val) (h : findCall s payload = none) :
    (messageHandler env s payload).sent = [] ∧ (messageHandler env s payload).invoked = [] := by
  constructor <;> simp [messageHandler, h]

theorem runResult_futures_success (s : RPCState) (payload : Val) (tok : String) (fid : Nat)
    (h : (getField payload "result").asStr = some "success")
    (hp : mapGet s.futures fid = some .pending) :
    mapGet (runResult s payload tok fid).futures fid
      = some (FutureState.resolved (getField payload "data")) := by
  simp only [runResult, h]
  simp only [if_pos trivial]
  rw [if_neg (by simp : ¬ ((some "success" : Option String) = some "fail"))]
  exact mapGet_settleFuture_pending _ _ _ hp

theorem runResult_futures_fail (s : RPCState) (payload : Val) (tok : String) (fid : Nat)
    (h : (getField payload "result").asStr = some "fail")
    (hp : mapGet s.futures fid = some .pending) :
    mapGet (runResult s payload tok fid).futures fid
      = some (FutureState.rejected (getField payload "error")) := by
  simp only [runResult, h]
  rw [if_neg (by simp : ¬ ((some "fail" : Option String) = some "success"))]
  simp only [if_pos trivial]
  exact mapGet_settleFuture_pending _ _ _ hp

theorem runResult_futures_other (s : RPCState) (payload : Val) (tok : String) (fid : Nat)
    (h1 : (getField payload "result").asStr ≠ some "success")
    (h2 : (getField payload "result").asStr ≠ some "fail") :
    (runResult s payload tok fid).futures = s.futures := by
  simp only [runResult]
  rw [if_neg h1, if_neg h2]

theorem asStr_eq_some {v : Val} {s : String} (h : v.asStr = some s) : v = Val.str s := by
  cases v <;> simp [Val.asStr] at h
  simp [h]

theorem mapCallArgs_not_arr {v : Val} (h : ∀ l, v ≠ Val.arr l) :
    mapCallArgs v = Except.error (Val.err "TypeError" (typeErrMsg v)) := by
  cases v <;> first | rfl | exact absurd rfl (h _)

/-! ### Claims -/

/-- C1: invoking a callable obtained from the call proxy (a) replaces every
function argument by the callback reference
`\x7b__rpc_callback__: true, callbackMethodName: "callback-<token>"\x7d` after
registering that function under that key in the local method registry, while
non-function arguments pass through unchanged; (b) generates a fresh call
token and sends the payload `\x7btype: "call", method, args, token\x7d` through
the adapter; and (c) creates a pending-table entry for that token at call
time, so the returned future settles when the matching result payload is
dispatched. -/
theorem C1_call_proxy_invocation (tokens : Nat → String)
    (hinj : ∀ a b, tokens a = tokens b → a = b)
    (s : RPCState) (methodName : String) (args : List Val)
    (hfresh : mapGet s.futures s.nextFutureId = none) :
    (callProxyInvoke tokens s methodName args).sent
        = [Val.obj [("type", Val.str "call"), ("method", Val.str methodName),
            ("args", Val.arr (marshalArgs tokens args s).1),
            ("token", Val.str (tokens (s.tokCounter + countFn args)))]] ∧
    (marshalArgs tokens args s).1.length = args.length ∧
    (∀ k i, args.get? k = some (Val.fn i) →
      (marshalArgs tokens args s).1.get? k
          = some (cbRef ("callback-" ++ tokens (s.tokCounter + countFn (args.take k)))) ∧
      mapGet (callProxyInvoke tokens s methodName args).state.callMap
          ("callback-" ++ tokens (s.tokCounter + countFn (args.take k))) = some i) ∧
    (∀ k v, args.get? k = some v → fnId v = none →
      (marshalArgs tokens args s).1.get? k = some v) ∧
    mapGet (callProxyInvoke tokens s methodName args).state.promiseMap
        (tokens (s.tokCounter + countFn args))
        = some (callProxyInvoke tokens s methodName args).futureId ∧
    (callProxyInvoke tokens s methodName args).futureId = s.nextFutureId ∧
    mapGet (callProxyInvoke tokens s methodName args).state.futures
        (callProxyInvoke tokens s methodName args).futureId = some FutureState.pending ∧
    (∀ env d,
      mapGet (messageHandler env (callProxyInvoke tokens s methodName args).state
          (mkSuccessPayload d (Val.str (tokens (s.tokCounter + countFn args))))).state.futures
          (callProxyInvoke tokens s methodName args).futureId
        = some (FutureState.resolved d)) := by
  have hms := marshalArgs_state tokens args s
  have hspec := marshalArgs_spec tokens hinj args s
  have hcallMap : (callProxyInvoke tokens s methodName args).state.callMap
      = (marshalArgs tokens args s).2.callMap := rfl
  have hsent : (callProxyInvoke tokens s methodName args).sent
      = [Val.obj [("type", Val.str "call"), ("method", Val.str methodName),
          ("args", Val.arr (marshalArgs tokens args s).1),
          ("token", Val.str (tokens (marshalArgs tokens args s).2.tokCounter))]] := rfl
  have hpmEq : (callProxyInvoke tokens s methodName args).state.promiseMap
      = mapSet (marshalArgs tokens args s).2.promiseMap
          (tokens (marshalArgs tokens args s).2.tokCounter)
          (marshalArgs tokens args s).2.nextFutureId := rfl
  have hfutEq : (callProxyInvoke tokens s methodName args).state.futures
      = (marshalArgs tokens args s).2.futures
          ++ [((marshalArgs tokens args s).2.nextFutureId, FutureState.pending)] := rfl
  have hfidEq : (callProxyInvoke tokens s methodName args).futureId
      = (marshalArgs tokens args s).2.nextFutureId := rfl
  have hpm : mapGet (callProxyInvoke tokens s methodName args).state.promiseMap
      (tokens (s.tokCounter + countFn args))
      = some (callProxyInvoke tokens s methodName args).futureId := by
    rw [hpmEq, hfidEq, hms.1, mapGet_mapSet, if_pos rfl]
  have hfut : mapGet (callProxyInvoke tokens s methodName args).state.futures
      (callProxyInvoke tokens s methodName args).futureId = some FutureState.pending := by
    rw [hfutEq, hfidEq, hms.2.2.1, hms.2.2.2.1]
    rw [mapGet_append_right _ _ _ hfresh]
    simp [mapGet]
  refine ⟨?_, marshalArgs_length tokens args s,
    (fun k i hk => ⟨((hspec k).1 i hk).1, hcallMap ▸ ((hspec k).1 i hk).2⟩),
    (fun k v hk hf => (hspec k).2 v hk hf), hpm, hfidEq.trans hms.2.2.2.1, hfut, ?_⟩
  · rw [hsent, hms.1]
  · intro env d
    set st := (callProxyInvoke tokens s methodName args).state with hst
    set tk := tokens (s.tokCounter + countFn args) with htk
    set fid := (callProxyInvoke tokens s methodName args).futureId with hfid
    have hfr : findResult st (mkSuccessPayload d (Val.str tk)) = some (tk, fid) := by
      rw [findResult]
      have h1 : (getField (mkSuccessPayload d (Val.str tk)) "type").asStr
          = some "call-result" := rfl
      have h2 : (getField (mkSuccessPayload d (Val.str tk)) "token").asStr = some tk := by
        simp [mkSuccessPayload, getField, mapGet, Val.asStr]
      rw [h1, if_pos rfl, h2]
      simp only [hpm]
    rw [messageHandler_state, hfr]
    have h3 : (getField (mkSuccessPayload d (Val.str tk)) "result").asStr = some "success" := by
      simp [mkSuccessPayload, getField, mapGet, Val.asStr]
    have h4 : getField (mkSuccessPayload d (Val.str tk)) "data" = d := by
      simp [mkSuccessPayload, getField, mapGet]
    simp only [runResult, h3, h4]
    simp only [if_pos trivial]
    rw [if_neg (by simp : ¬ ((some "success" : Option String) = some "fail"))]
    exact mapGet_settleFuture_pending _ _ _ hfut

/-- C2: for an inbound "call-result" payload, an unknown token is silently
ignored; a pending token is resolved with the payload's data on "success" or
rejected with its error on "fail", and the table entry is removed
unconditionally, so a second delivery of the same payload is a no-op. -/
theorem C2_result_payload_dispatch (env : Nat → List RArg → Except Val Val) (s : RPCState)
    (payload : Val) (t : String)
    (hT : getField payload "type" = Val.str "call-result")
    (hTok : getField payload "token" = Val.str t) :
    (mapGet s.promiseMap t = none → messageHandler env s payload = ⟨s, [], []⟩) ∧
    (∀ fid, mapGet s.promiseMap t = some fid →
      (messageHandler env s payload).sent = [] ∧
      (messageHandler env s payload).invoked = [] ∧
      mapGet (messageHandler env s payload).state.promiseMap t = none ∧
      (getField payload "result" = Val.str "success" →
        mapGet s.futures fid = some FutureState.pending →
        mapGet (messageHandler env s payload).state.futures fid
          = some (FutureState.resolved (getField payload "data"))) ∧
      (getField payload "result" = Val.str "fail" →
        mapGet s.futures fid = some FutureState.pending →
        mapGet (messageHandler env s payload).state.futures fid
          = some (FutureState.rejected (getField payload "error"))) ∧
      messageHandler env (messageHandler env s payload).state payload
        = ⟨(messageHandler env s payload).state, [], []⟩) := by
  have hAsT : (getField payload "type").asStr = some "call-result" := by rw [hT]; rfl
  have hAsTok : (getField payload "token").asStr = some t := by rw [hTok]; rfl
  have hfcAny : ∀ st : RPCState, findCall st payload = none := by
    intro st
    rw [findCall, if_neg (by rw [hAsT]; simp)]
  have hfrOf : ∀ st : RPCState, ∀ o, mapGet st.promiseMap t = o →
      findResult st payload = o.map (fun fid => (t, fid)) := by
    intro st o ho
    rw [findResult, if_pos hAsT, hAsTok]
    simp only [ho]
    cases o <;> simp
  constructor
  · intro hnone
    exact messageHandler_inert env s payload (hfcAny s) (hfrOf s none hnone)
  · intro fid hsome
    have hfr : findResult s payload = some (t, fid) := hfrOf s (some fid) hsome
    have hstate : (messageHandler env s payload).state = runResult s payload t fid := by
      rw [messageHandler_state, hfr]
    have hpmDel : mapGet (messageHandler env s payload).state.promiseMap t = none := by
      rw [hstate, runResult_promiseMap, mapGet_mapDelete, if_pos rfl]
    refine ⟨(messageHandler_noCall env s payload (hfcAny s)).1,
      (messageHandler_noCall env s payload (hfcAny s)).2, hpmDel, ?_, ?_, ?_⟩
    · intro hres hp
      rw [hstate]
      exact runResult_futures_success s payload t fid (by rw [hres]; rfl) hp
    · intro hres hp
      rw [hstate]
      exact runResult_futures_fail s payload t fid (by rw [hres]; rfl) hp
    · exact messageHandler_inert env _ payload (hfcAny _) (hfrOf _ none hpmDel)

/-- Closed instance of C2 at a concrete pending table and result payload. -/
theorem C2_witness :
    mapGet (messageHandler (fun _ _ => Except.ok Val.undefined)
        { callMap := [], promiseMap := [("t1", 0)], futures := [(0, FutureState.pending)],
          nextFutureId := 1, tokCounter := 0, subscribed := true }
        (Val.obj [("type", Val.str "call-result"), ("token", Val.str "t1"),
          ("result", Val.str "success"), ("data", Val.num 5)])).state.promiseMap "t1"
      = none ∧
    mapGet (messageHandler (fun _ _ => Except.ok Val.undefined)
        { callMap := [], promiseMap := [("t1", 0)], futures := [(0, FutureState.pending)],
          nextFutureId := 1, tokCounter := 0, subscribed := true }
        (Val.obj [("type", Val.str "call-result"), ("token", Val.str "t1"),
          ("result", Val.str "success"), ("data", Val.num 5)])).state.futures 0
      = some (FutureState.resolved (Val.num 5)) := by
  have h := C2_result_payload_dispatch (fun _ _ => Except.ok Val.undefined)
    { callMap := [], promiseMap := [("t1", 0)], futures := [(0, FutureState.pending)],
      nextFutureId := 1, tokCounter := 0, subscribed := true }
    (Val.obj [("type", Val.str "call-result"), ("token", Val.str "t1"),
      ("result", Val.str "success"), ("data", Val.num 5)]) "t1" rfl rfl
  have h2 := h.2 0 rfl
  exact ⟨h2.2.2.1, h2.2.2.2.1 rfl rfl⟩

/-- C3 (amended): for every NON-EMPTY namespace N, calling m on the proxy
returned by use(N) is equivalent to calling the call proxy under the key
"N:m" (same payload, method field "N:m"), and "N:m" is distinct from "m";
for the empty namespace the view coincides with the unnamespaced call proxy
(the claim's universal statement fails there, see the counterexample). -/
theorem C3_namespace_view_amended (tokens : Nat → String) (s : RPCState)
    (ns mn : String) (args : List Val) (h : ns ≠ "") :
    useInvoke tokens s ns mn args = callProxyInvoke tokens s (ns ++ ":" ++ mn) args ∧
    (∀ p ∈ (useInvoke tokens s ns mn args).sent,
      getField p "method" = Val.str (ns ++ ":" ++ mn)) ∧
    ns ++ ":" ++ mn ≠ mn := by
  have hkey : jsKey ns mn = ns ++ ":" ++ mn := by rw [jsKey, if_neg h]
  have h1 : useInvoke tokens s ns mn args = callProxyInvoke tokens s (ns ++ ":" ++ mn) args := by
    rw [useInvoke, hkey]
  refine ⟨h1, ?_, ?_⟩
  · intro p hp
    rw [h1] at hp
    have hs : (callProxyInvoke tokens s (ns ++ ":" ++ mn) args).sent
        = [Val.obj [("type", Val.str "call"), ("method", Val.str (ns ++ ":" ++ mn)),
            ("args", Val.arr (marshalArgs tokens args s).1),
            ("token", Val.str (tokens (marshalArgs tokens args s).2.tokCounter))]] := rfl
    rw [hs] at hp
    rcases List.mem_singleton.mp hp with rfl
    rfl
  · intro he
    have hlen := congrArg String.length he
    rw [String.length_append, String.length_append] at hlen
    have hns : 0 < ns.length := by
      rcases Nat.eq_zero_or_pos ns.length with h0 | h0
      · exact absurd (String.ext (List.length_eq_zero.mp h0)) h
      · exact h0
    have hone : (":" : String).length = 1 := rfl
    omega

/-- C3 counterexample: with namespace "" (a namespace string), the view does
not prefix the method name — `use("").add` produces the same call as the
unnamespaced `callProxy.add`, with method field "add" rather than ":add",
so the two do not target distinct registry keys. -/
theorem C3_counterexample :
    useInvoke tokW (init []) "" "add" [] = callProxyInvoke tokW (init []) "add" [] ∧
    (∀ p ∈ (useInvoke tokW (init []) "" "add" []).sent,
      getField p "method" = Val.str "add") ∧
    Val.str "add" ≠ Val.str ":add" := by
  refine ⟨rfl, ?_, by simp⟩
  intro p hp
  have hs : (useInvoke tokW (init []) "" "add" []).sent
      = [Val.obj [("type", Val.str "call"), ("method", Val.str "add"),
          ("args", Val.arr []), ("token", Val.str (tokW 0))]] := rfl
  rw [hs] at hp
  rcases List.mem_singleton.mp hp with rfl
  rfl

/-- Closed instance of the amended C3 at a concrete non-empty namespace. -/
theorem C3_amended_witness :
    ("ns" : String) ≠ "" ∧
    useInvoke tokW (init []) "ns" "add" []
      = callProxyInvoke tokW (init []) ("ns" ++ ":" ++ "add") [] ∧
    "ns" ++ ":" ++ "add" ≠ ("add" : String) :=
  ⟨by decide, (C3_namespace_view_amended tokW (init []) "ns" "add" [] (by decide)).1,
   (C3_namespace_view_amended tokW (init []) "ns" "add" [] (by decide)).2.2⟩

/-- C4 (amended): register with no method set fails with the
InvalidArgument condition; otherwise each entry is inserted or overwritten
under the key "namespace:methodName" when a NON-EMPTY namespace is supplied
and "methodName" when the namespace is absent or empty, and the same method
set is returned unchanged. -/
theorem C4_register_amended (s : RPCState) (nso : Option String)
    (ms : List (String × Nat)) (hnd : (ms.map Prod.fst).Nodup) :
    registerRPC s nso none = Except.error "methods cannot be undefined" ∧
    registerRPC s nso (some ms) = Except.ok (regFold nso ms s, ms) ∧
    (∀ name fid, (name, fid) ∈ ms →
      mapGet (regFold nso ms s).callMap (methodKey nso name) = some fid) ∧
    (∀ n name, nso = some n → n ≠ "" → methodKey nso name = n ++ ":" ++ name) ∧
    (∀ name, nso = none ∨ nso = some "" → methodKey nso name = name) := by
  refine ⟨rfl, rfl, ?_, ?_, ?_⟩
  · intro name fid hm
    exact regFold_mem nso ms s name fid hm hnd
  · intro n name hn hne
    subst hn
    simp [methodKey, jsKey, hne]
  · intro name hh
    rcases hh with hh | hh <;> subst hh <;> simp [methodKey, jsKey]

/-- C4 counterexample: with the supplied (empty) namespace "" the key is
"f", not ":f" — the claim's unconditional `namespace:methodName` rule fails
on the empty namespace, which is falsy in the source's key computation. -/
theorem C4_counterexample :
    registerRPC (init []) (some "") (some [("f", 0)])
      = Except.ok (regFold (some "") [("f", 0)] (init []), [("f", 0)]) ∧
    mapGet (regFold (some "") [("f", 0)] (init [])).callMap ":f" = none ∧
    mapGet (regFold (some "") [("f", 0)] (init [])).callMap "f" = some 0 :=
  ⟨rfl, rfl, rfl⟩

/-- Closed instance of the amended C4 at a concrete namespace and method
set. -/
theorem C4_amended_witness :
    (([("f", 0), ("g", 1)] : List (String × Nat)).map Prod.fst).Nodup ∧
    registerRPC (init []) (some "ns") none
      = Except.error "methods cannot be undefined" ∧
    mapGet (regFold (some "ns") [("f", 0), ("g", 1)] (init [])).callMap
      (methodKey (some "ns") "g") = some 1 := by
  have h := C4_register_amended (init []) (some "ns") [("f", 0), ("g", 1)] (by simp)
  exact ⟨by simp, h.1, h.2.2.1 "g" 1 (by simp)⟩

/-- C5: a handler that throws or rejects during dispatch produces a "fail"
result payload echoing the inbound token, carrying the thrown value
normalized by formatError, which reduces exactly Error instances to
`\x7bmessage, name\x7d` and passes every other value through; the dispatcher
itself never crashes (it is a total function and still performs the handler
invocation and reply). -/
theorem C5_handler_error_normalization (env : Nat → List RArg → Except Val Val)
    (s : RPCState) (payload : Val) (name : String) (fid : Nat) (l : List Val) (e : Val)
    (hT : getField payload "type" = Val.str "call")
    (hM : getField payload "method" = Val.str name) (hne : name ≠ "")
    (hreg : mapGet s.callMap name = some fid)
    (hargs : getField payload "args" = Val.arr l)
    (hthrow : env fid (l.map rewriteArg) = Except.error e) :
    (messageHandler env s payload).sent
      = [mkFailPayload (formatError e) (getField payload "token")] ∧
    (messageHandler env s payload).invoked = [(fid, l.map rewriteArg)] ∧
    (∀ n msg, formatError (Val.err n msg)
      = Val.obj [("message", Val.str msg), ("name", Val.str n)]) ∧
    (∀ v, (∀ n msg, v ≠ Val.err n msg) → formatError v = v) := by
  have hfc : findCall s payload = some fid := by
    rw [findCall, if_pos (by rw [hT]; rfl)]
    rw [hM]
    simp only [Val.asStr]
    rw [if_neg hne]
    exact hreg
  have hrun : runCall env payload fid
      = ([mkFailPayload (formatError e) (getField payload "token")],
         [(fid, l.map rewriteArg)]) := by
    simp only [runCall, hargs, mapCallArgs, hthrow]
  have hsi := messageHandler_sent_invoked env s payload fid hfc
  refine ⟨by rw [hsi.1, hrun], by rw [hsi.2, hrun], fun n msg => rfl, ?_⟩
  intro v hv
  cases v <;> first | rfl | exact absurd rfl (hv _ _)

/-- Closed instance of C5: a registered handler that rejects with an Error
value makes the dispatcher post the normalized fail payload. -/
theorem C5_witness :
    (messageHandler (fun _ _ => Except.error (Val.err "Error" "boom"))
      { callMap := [("f", 0)], promiseMap := [], futures := [], nextFutureId := 0,
        tokCounter := 0, subscribed := true }
      (Val.obj [("type", Val.str "call"), ("method", Val.str "f"),
        ("args", Val.arr []), ("token", Val.str "t1")])).sent
      = [mkFailPayload (Val.obj [("message", Val.str "boom"), ("name", Val.str "Error")])
          (Val.str "t1")] := by
  have h := C5_handler_error_normalization (fun _ _ => Except.error (Val.err "Error" "boom"))
    { callMap := [("f", 0)], promiseMap := [], futures := [], nextFutureId := 0,
      tokCounter := 0, subscribed := true }
    (Val.obj [("type", Val.str "call"), ("method", Val.str "f"),
      ("args", Val.arr []), ("token", Val.str "t1")])
    "f" 0 [] (Val.err "Error" "boom") rfl rfl (by decide) rfl rfl rfl
  exact h.1

/-- Closed instance of C1 at a concrete token stream, state, and argument
list containing one function argument and one plain argument. -/
theorem C1_witness :
    (callProxyInvoke tokW (init []) "add" [Val.fn 7, Val.num 3]).sent
        = [Val.obj [("type", Val.str "call"), ("method", Val.str "add"),
            ("args", Val.arr (marshalArgs tokW [Val.fn 7, Val.num 3] (init [])).1),
            ("token", Val.str (tokW (0 + countFn [Val.fn 7, Val.num 3])))]] ∧
    mapGet (callProxyInvoke tokW (init []) "add" [Val.fn 7, Val.num 3]).state.callMap
        ("callback-" ++ tokW (0 + countFn (List.take 0 [Val.fn 7, Val.num 3]))) = some 7 := by
  have h := C1_call_proxy_invocation tokW tokW_inj (init []) "add" [Val.fn 7, Val.num 3] rfl
  exact ⟨h.1, (h.2.2.1 0 7 rfl).2⟩

/-- C6: an inbound "call" payload whose method key is not registered is
silently dropped — no outbound payload, no handler invocation, no state
change, no raised error. -/
theorem C6_unknown_method_dropped (env : Nat → List RArg → Except Val Val)
    (s : RPCState) (payload : Val)
    (hT : getField payload "type" = Val.str "call")
    (hUnknown : ∀ name, getField payload "method" = Val.str name →
      mapGet s.callMap name = none) :
    messageHandler env s payload = ⟨s, [], []⟩ := by
  have hfc : findCall s payload = none := by
    rw [findCall, if_pos (by rw [hT]; rfl)]
    cases hM : (getField payload "method").asStr with
    | none => rfl
    | some name =>
      have hv := hUnknown name (asStr_eq_some hM)
      by_cases hn : name = "" <;> simp [hn, hv]
  have hfr : findResult s payload = none := by
    rw [findResult, if_neg (by rw [hT]; simp [Val.asStr])]
  exact messageHandler_inert env s payload hfc hfr

/-- Closed instance of C6: a call for an unregistered method on a registry
holding only "f". -/
theorem C6_witness :
    messageHandler (fun _ _ => Except.ok Val.undefined) (init [("f", 0)])
        (Val.obj [("type", Val.str "call"), ("method", Val.str "nope"),
          ("token", Val.str "t")])
      = ⟨init [("f", 0)], [], []⟩ := by
  apply C6_unknown_method_dropped
  · rfl
  · intro name h
    have h2 : Val.str "nope" = Val.str name := h
    injection h2 with h3
    rw [← h3]
    rfl

/-- C7 (amended): a payload that fires neither dispatcher guard — not a
"call" for a truthy, registered method and not a "call-result" for a pending
token — is ignored silently: no handler runs, nothing is sent, state is
unchanged.  However, a "call" payload for a KNOWN method whose args field is
not an array is not silent: the rewrite throws inside the try block and the
caught error is posted as a "fail" result payload (still no handler
invocation and no escaping error). -/
theorem C7_unroutable_amended (env : Nat → List RArg → Except Val Val)
    (s : RPCState) (payload : Val) :
    ((∀ name, getField payload "type" = Val.str "call" →
        getField payload "method" = Val.str name →
        name = "" ∨ mapGet s.callMap name = none) →
      (getField payload "type" = Val.str "call-result" →
        ∀ tok, getField payload "token" = Val.str tok →
          mapGet s.promiseMap tok = none) →
      messageHandler env s payload = ⟨s, [], []⟩) ∧
    (∀ name fid, getField payload "type" = Val.str "call" →
      getField payload "method" = Val.str name → name ≠ "" →
      mapGet s.callMap name = some fid →
      (∀ l, getField payload "args" ≠ Val.arr l) →
      (messageHandler env s payload).sent
        = [mkFailPayload
            (formatError (Val.err "TypeError" (typeErrMsg (getField payload "args"))))
            (getField payload "token")] ∧
      (messageHandler env s payload).invoked = []) := by
  constructor
  · intro h1 h2
    have hfc : findCall s payload = none := by
      rw [findCall]
      by_cases hc : (getField payload "type").asStr = some "call"
      · rw [if_pos hc]
        cases hM : (getField payload "method").asStr with
        | none => rfl
        | some name =>
          rcases h1 name (asStr_eq_some hc) (asStr_eq_some hM) with hn | hn
          · simp [hn]
          · by_cases hn2 : name = "" <;> simp [hn2, hn]
      · rw [if_neg hc]
    have hfr : findResult s payload = none := by
      rw [findResult]
      by_cases hc : (getField payload "type").asStr = some "call-result"
      · rw [if_pos hc]
        cases hTk : (getField payload "token").asStr with
        | none => rfl
        | some tok =>
          have hv := h2 (asStr_eq_some hc) tok (asStr_eq_some hTk)
          simp [hv]
      · rw [if_neg hc]
    exact messageHandler_inert env s payload hfc hfr
  · intro name fid hT hM hne hreg hnarr
    have hfc : findCall s payload = some fid := by
      rw [findCall, if_pos (by rw [hT]; rfl)]
      rw [hM]
      simp only [Val.asStr]
      rw [if_neg hne]
      exact hreg
    have hrun : runCall env payload fid
        = ([mkFailPayload
              (formatError (Val.err "TypeError" (typeErrMsg (getField payload "args"))))
              (getField payload "token")], []) := by
      simp only [runCall, mapCallArgs_not_arr hnarr]
    have hsi := messageHandler_sent_invoked env s payload fid hfc
    exact ⟨by rw [hsi.1, hrun], by rw [hsi.2, hrun]⟩

/-- C7 counterexample: a "call" payload for a registered method with a
missing args field (so not a well-formed call payload) makes the dispatcher
send a fail result — the channel does not stay silent as the claim states. -/
theorem C7_counterexample :
    (messageHandler (fun _ _ => Except.ok Val.undefined) (init [("f", 0)])
        (Val.obj [("type", Val.str "call"), ("method", Val.str "f"),
          ("token", Val.str "t1")])).sent
      = [mkFailPayload (formatError (Val.err "TypeError" (typeErrMsg Val.undefined)))
          (Val.str "t1")] ∧
    [mkFailPayload (formatError (Val.err "TypeError" (typeErrMsg Val.undefined)))
        (Val.str "t1")] ≠ ([] : List Val) :=
  ⟨rfl, by simp⟩

/-- Closed instance of the amended C7: a plain string payload (not an RPC
message at all) is ignored silently. -/
theorem C7_amended_witness :
    messageHandler (fun _ _ => Except.ok Val.undefined) (init []) (Val.str "hello")
      = ⟨init [], [], []⟩ := by
  apply (C7_unroutable_amended (fun _ _ => Except.ok Val.undefined) (init []) (Val.str "hello")).1
  · intro name h1 _
    exact absurd h1 (by simp [getField])
  · intro h1 tok _
    exact absurd h1 (by simp [getField])

/-- C8: after destroy() the handler is unsubscribed and both maps are
empty, and no subsequently delivered payload produces any output, invokes
any handler, or changes the state (so no pending future ever settles from
inbound traffic). -/
theorem C8_destroy_inert (env : Nat → List RArg → Except Val Val) (s : RPCState)
    (ps : List Val) :
    (destroy s).promiseMap = [] ∧ (destroy s).callMap = [] ∧
    (destroy s).subscribed = false ∧
    deliverList env (destroy s) ps = ((destroy s), [], []) := by
  refine ⟨rfl, rfl, rfl, ?_⟩
  induction ps with
  | nil => rfl
  | cons p rest ih =>
    have hd : deliver env (destroy s) p = ⟨destroy s, [], []⟩ := by
      rw [deliver, if_neg (by simp [destroy])]
    simp [deliverList, hd, ih]

/-- C9: `register` can create the empty-string key (method named "" without
a namespace), yet an inbound "call" payload with method "" is silently
dropped — the empty method name is falsy, so the guard never consults the
registry. -/
theorem C9_empty_method_dropped (env : Nat → List RArg → Except Val Val)
    (s s2 : RPCState) (fid : Nat) (payload : Val)
    (hT : getField payload "type" = Val.str "call")
    (hM : getField payload "method" = Val.str "")
    (hreg : mapGet s.callMap "" = some fid) :
    registerRPC s2 none (some [("", fid)])
        = Except.ok (regFold none [("", fid)] s2, [("", fid)]) ∧
    mapGet (regFold none [("", fid)] s2).callMap "" = some fid ∧
    messageHandler env s payload = ⟨s, [], []⟩ := by
  refine ⟨rfl, ?_, ?_⟩
  · show mapGet (mapSet s2.callMap (methodKey none "") fid) "" = some fid
    rw [mapGet_mapSet]
    simp [methodKey]
  · have hfc : findCall s payload = none := by
      rw [findCall, if_pos (by rw [hT]; rfl)]
      rw [hM]
      simp [Val.asStr]
    have hfr : findResult s payload = none := by
      rw [findResult, if_neg (by rw [hT]; simp [Val.asStr])]
    exact messageHandler_inert env s payload hfc hfr

/-- Closed instance of C9: registry holding the "" key, inbound call with
the empty method name. -/
theorem C9_witness :
    mapGet (regFold none [("", 5)] (init [])).callMap "" = some 5 ∧
    messageHandler (fun _ _ => Except.ok Val.undefined)
        { callMap := [("", 5)], promiseMap := [], futures := [], nextFutureId := 0,
          tokCounter := 0, subscribed := true }
        (Val.obj [("type", Val.str "call"), ("method", Val.str ""),
          ("token", Val.str "t")])
      = ⟨{ callMap := [("", 5)], promiseMap := [], futures := [], nextFutureId := 0, tokCounter := 0, subscribed := true }, [], []⟩ := by
  have h := C9_empty_method_dropped (fun _ _ => Except.ok Val.undefined)
    { callMap := [("", 5)], promiseMap := [], futures := [], nextFutureId := 0,
      tokCounter := 0, subscribed := true }
    (init []) 5
    (Val.obj [("type", Val.str "call"), ("method", Val.str ""), ("token", Val.str "t")])
    rfl rfl rfl
  exact ⟨h.2.1, h.2.2⟩

/-- C10: an inbound "call-result" for a pending token whose result field is
neither "success" nor "fail" removes the table entry without settling the
future, and (the token being the only reference to that future) no later
inbound traffic can ever settle it. -/
theorem C10_unknown_result_value (env : Nat → List RArg → Except Val Val)
    (s : RPCState) (payload : Val) (t : String) (fid : Nat) (v : Val)
    (hT : getField payload "type" = Val.str "call-result")
    (hTok : getField payload "token" = Val.str t)
    (hpm : mapGet s.promiseMap t = some fid)
    (hres : getField payload "result" = v)
    (hv1 : v ≠ Val.str "success") (hv2 : v ≠ Val.str "fail")
    (huniq : ∀ pr ∈ s.promiseMap, pr.2 = fid → pr.1 = t)
    (hpend : mapGet s.futures fid = some FutureState.pending) :
    mapGet (messageHandler env s payload).state.promiseMap t = none ∧
    (messageHandler env s payload).state.futures = s.futures ∧
    (∀ ps, mapGet (deliverList env (messageHandler env s payload).state ps).1.futures fid
      = some FutureState.pending) := by
  have hAsT : (getField payload "type").asStr = some "call-result" := by rw [hT]; rfl
  have hAsTok : (getField payload "token").asStr = some t := by rw [hTok]; rfl
  have hfr : findResult s payload = some (t, fid) := by
    rw [findResult, if_pos hAsT, hAsTok]
    simp only [hpm]
  have hstate : (messageHandler env s payload).state = runResult s payload t fid := by
    rw [messageHandler_state, hfr]
  have hr1 : (getField payload "result").asStr ≠ some "success" := by
    rw [hres]
    intro hc
    exact hv1 (asStr_eq_some hc)
  have hr2 : (getField payload "result").asStr ≠ some "fail" := by
    rw [hres]
    intro hc
    exact hv2 (asStr_eq_some hc)
  have hfut : (messageHandler env s payload).state.futures = s.futures := by
    rw [hstate]
    exact runResult_futures_other s payload t fid hr1 hr2
  have hpmDel : mapGet (messageHandler env s payload).state.promiseMap t = none := by
    rw [hstate, runResult_promiseMap, mapGet_mapDelete, if_pos rfl]
  refine ⟨hpmDel, hfut, ?_⟩
  intro ps
  have hnoref : ∀ pr ∈ (messageHandler env s payload).state.promiseMap, pr.2 ≠ fid := by
    rw [hstate, runResult_promiseMap]
    intro pr hpr hc
    obtain ⟨hmem, hne⟩ := mem_mapDelete hpr
    exact hne (huniq pr hmem hc)
  have hd := deliverList_no_ref env ps (messageHandler env s payload).state fid hnoref
  rw [hd.1, hfut]
  exact hpend

/-- Closed instance of C10: a pending token receiving result "weird", then a
redelivery of the very same payload; the future stays pending. -/
theorem C10_witness :
    mapGet (messageHandler (fun _ _ => Except.ok Val.undefined)
        { callMap := [], promiseMap := [("t1", 0)], futures := [(0, FutureState.pending)],
          nextFutureId := 1, tokCounter := 0, subscribed := true }
        (Val.obj [("type", Val.str "call-result"), ("token", Val.str "t1"),
          ("result", Val.str "weird")])).state.promiseMap "t1" = none ∧
    mapGet (deliverList (fun _ _ => Except.ok Val.undefined)
        (messageHandler (fun _ _ => Except.ok Val.undefined)
          { callMap := [], promiseMap := [("t1", 0)], futures := [(0, FutureState.pending)],
            nextFutureId := 1, tokCounter := 0, subscribed := true }
          (Val.obj [("type", Val.str "call-result"), ("token", Val.str "t1"),
            ("result", Val.str "weird")])).state
        [Val.obj [("type", Val.str "call-result"), ("token", Val.str "t1"),
          ("result", Val.str "success"), ("data", Val.num 1)]]).1.futures 0
      = some FutureState.pending := by
  have h := C10_unknown_result_value (fun _ _ => Except.ok Val.undefined)
    { callMap := [], promiseMap := [("t1", 0)], futures := [(0, FutureState.pending)],
      nextFutureId := 1, tokCounter := 0, subscribed := true }
    (Val.obj [("type", Val.str "call-result"), ("token", Val.str "t1"),
      ("result", Val.str "weird")])
    "t1" 0 (Val.str "weird") rfl rfl rfl rfl (by simp) (by simp)
    (by intro pr hpr _; simp at hpr; simp [hpr]) rfl
  exact ⟨h.1, h.2.2 [Val.obj [("type", Val.str "call-result"), ("token", Val.str "t1"),
    ("result", Val.str "success"), ("data", Val.num 1)]]⟩

end WebMessageRPC
